import Mathlib

/-!
Shallow embedding of the voice-assistant command pipeline of the
Freelancing-Project-Management-App repository
(source file: src/components/VoiceAssistant.tsx, duplicated with the
subtask-aware intent dispatcher in the unnamed part_005 revision).

Each definition is translated from the TypeScript source; machine integers
are modelled as Nat/Int with explicit bounds, JavaScript floats as exact
rationals, and the stateful callback code as explicit state-passing
functions over the mutable references held by the component.
-/

/-! ### Audio wire codec: base64 (functions encode / decode) -/

/-- The base64 alphabet used by btoa / atob. -/
def b64Alphabet : List Char :=
  "ABCDEFGHIJKLMNOPQRSTUVWXYZabcdefghijklmnopqrstuvwxyz0123456789+/".toList

/-- Character for a 6-bit group (btoa direction). -/
def b64Char (n : ℕ) : Char := b64Alphabet.getD n 'A'

/-- 6-bit value of an alphabet character (atob direction). -/
def b64Val (c : Char) : ℕ := b64Alphabet.findIdx (fun d => d == c)

/-- Source function encode: builds a binary string from the byte array and
base64-encodes it with btoa.  A byte sequence is modelled as a list of
naturals below 256; the result is the list of characters of the base64
text, including the '=' padding btoa emits. -/
def encode : List ℕ → List Char
  | [] => []
  | [a] => [b64Char (a / 4), b64Char (a % 4 * 16), '=', '=']
  | [a, b] => [b64Char (a / 4), b64Char (a % 4 * 16 + b / 16), b64Char (b % 16 * 4), '=']
  | a :: b :: c :: rest =>
      b64Char (a / 4) :: b64Char (a % 4 * 16 + b / 16) ::
        b64Char (b % 16 * 4 + c / 64) :: b64Char (c % 64) :: encode rest

/-- Source function decode: atob the base64 text and read the character
codes back into a byte array. -/
def decode : List Char → List ℕ
  | c1 :: c2 :: c3 :: c4 :: rest =>
      if c3 = '=' then
        [b64Val c1 * 4 + b64Val c2 / 16]
      else if c4 = '=' then
        [b64Val c1 * 4 + b64Val c2 / 16, b64Val c2 % 16 * 16 + b64Val c3 / 4]
      else
        (b64Val c1 * 4 + b64Val c2 / 16) :: (b64Val c2 % 16 * 16 + b64Val c3 / 4) ::
          (b64Val c3 % 4 * 64 + b64Val c4) :: decode rest
  | _ => []

/-! ### Audio sample codec (createBlob / decodeAudioData) -/

/-- Unsigned 16-bit reading of a signed value, as done by viewing an
Int16Array buffer through a Uint8Array. -/
def toUint16 (v : ℤ) : ℕ := (v % 65536).toNat

/-- Signed reading of an unsigned 16-bit value (Int16Array element). -/
def fromUint16 (u : ℕ) : ℤ := if u < 32768 then (u : ℤ) else (u : ℤ) - 65536

/-- Little-endian byte pair of one Int16Array element
(new Uint8Array(int16.buffer) in createBlob). -/
def int16ToBytes (v : ℤ) : List ℕ := [toUint16 v % 256, toUint16 v / 256]

/-- Whole Int16Array viewed as bytes, little-endian. -/
def int16sToBytes (vs : List ℤ) : List ℕ := vs.flatMap int16ToBytes

/-- Bytes viewed as an Int16Array (new Int16Array(data.buffer) in
decodeAudioData), little-endian. -/
def bytesToInt16s : List ℕ → List ℤ
  | b0 :: b1 :: rest => fromUint16 (b0 + 256 * b1) :: bytesToInt16s rest
  | _ => []

/-- JavaScript truncation toward zero (ToIntegerOrInfinity) on an exact
rational model of the float value. -/
def ratTrunc (q : ℚ) : ℤ := if 0 ≤ q then ⌊q⌋ else ⌈q⌉

/-- The JavaScript Int16Array element store conversion: truncate, then wrap
modulo 2^16 into the signed 16-bit range. -/
def wrap16 (n : ℤ) : ℤ := if n % 65536 < 32768 then n % 65536 else n % 65536 - 65536

/-- One sample of createBlob: int16[i] = data[i] * 32768 under Int16Array
store semantics. -/
def jsToInt16 (q : ℚ) : ℤ := wrap16 (ratTrunc (q * 32768))

/-- The wire payload produced by createBlob: data is the base64 text of the
little-endian Int16 buffer; mimeType is the fixed 16 kHz mono PCM tag. -/
structure Blob where
  data : List Char
  mimeType : String
deriving DecidableEq

/-- Source function createBlob. -/
def createBlob (data : List ℚ) : Blob :=
  ⟨encode (int16sToBytes (data.map jsToInt16)), "audio/pcm;rate=16000"⟩

/-- The playable buffer produced by decodeAudioData: per-channel sample
sequences at the given sample rate. -/
structure AudioBuffer where
  sampleRate : ℕ
  channels : List (List ℚ)
deriving DecidableEq

/-- Source function decodeAudioData: reinterpret the bytes as signed 16-bit
little-endian samples, de-interleave by channel, rescale by 1/32768. -/
def decodeAudioData (data : List ℕ) (sampleRate numChannels : ℕ) : AudioBuffer :=
  let dataInt16 := bytesToInt16s data
  let frameCount := dataInt16.length / numChannels
  ⟨sampleRate,
    (List.range numChannels).map fun channel =>
      (List.range frameCount).map fun i =>
        ((dataInt16.getD (i * numChannels + channel) 0 : ℤ) : ℚ) / 32768⟩

/-! ### Substring matching (Postgres ilike used by the project lookup) -/

/-- Whether the first list is a prefix of the second (character-wise). -/
def subSeqAt : List Char → List Char → Bool
  | [], _ => true
  | _ :: _, [] => false
  | a :: as, b :: bs => a == b && subSeqAt as bs

/-- Whether the pattern occurs as a contiguous run inside the list. -/
def hasRun (pat : List Char) : List Char → Bool
  | [] => pat.isEmpty
  | b :: bs => subSeqAt pat (b :: bs) || hasRun pat bs

/-- Plain (case-sensitive) substring containment on strings. -/
def containsText (s pat : String) : Bool := hasRun pat.data s.data

/-- ASCII lowercasing of one character. -/
def lowerChar (c : Char) : Char :=
  if 'A' ≤ c ∧ c ≤ 'Z' then Char.ofNat (c.toNat + 32) else c

/-- ASCII lowercasing of a string, as a character list. -/
def lowerList (cs : List Char) : List Char := cs.map lowerChar

/-- Case-insensitive substring containment: the semantics of the Postgres
ilike filter with a pattern wrapped in percent wildcards, as issued by the
addTodo branch of handleToolCall. -/
def containsCI (haystack pat : String) : Bool :=
  hasRun (lowerList pat.data) (lowerList haystack.data)

/-! ### Intent Dispatcher (handleToolCall) -/

/-- Transcript speakers (the conversation state array). -/
inductive Speaker where
  | user
  | model
  | system
deriving DecidableEq

/-- One entry of the conversation state array. -/
structure Turn where
  speaker : Speaker
  text : String
deriving DecidableEq

/-- Argument object of an intent call.  The source types it as an open
untyped object; this record collects every field any dispatch recipe
reads.  Fields irrelevant to a given intent are simply unread. -/
structure Args where
  name : String
  client : String
  deadline : String
  category : String
  status : String
  text : String
  project_name : String
  description : String
  amount : ℚ
  date : String
  type : String
deriving DecidableEq

/-- One structured intent call (fc) from the remote model. -/
structure FunctionCall where
  id : String
  name : String
  args : Args
deriving DecidableEq

/-- Record inserted into the projects table by addProject:
spread of the args plus the derived status field. -/
structure ProjectInsert where
  name : String
  client : String
  deadline : String
  category : String
  status : String
deriving DecidableEq

/-- Record inserted into the skills table by addSkill. -/
structure SkillInsert where
  name : String
  deadline : String
  status : String
  category : String
deriving DecidableEq

/-- Record inserted into the transactions table by addTransaction. -/
structure TransactionInsert where
  description : String
  amount : ℚ
  date : String
  type : String
deriving DecidableEq

/-- Record inserted into the subtasks table by addTodo. -/
structure SubtaskInsert where
  name : String
  status : String
  project_id : String
  position : ℤ
deriving DecidableEq

/-- A record sent to the external database insert interface. -/
inductive Row where
  | project (r : ProjectInsert)
  | skill (r : SkillInsert)
  | transaction (r : TransactionInsert)
  | subtask (r : SubtaskInsert)
deriving DecidableEq

/-- A row of the external projects table, restricted to the columns the
dispatcher reads (select id, filtered on name). -/
structure ProjectRow where
  id : String
  name : String
deriving DecidableEq

/-- A row of the external subtasks table, restricted to the columns the
dispatcher reads (select position, filtered on project_id). -/
structure SubtaskRow where
  project_id : String
  position : ℤ
deriving DecidableEq

/-- The external store as visible to the dispatcher's read queries. -/
structure Store where
  projects : List ProjectRow
  subtasks : List SubtaskRow
deriving DecidableEq

/-- Observable actions of the voice-assistant component: transcript turn
appends, database inserts, tool-result replies sent on the session, and
a request to close the remote session. -/
inductive Effect where
  | addTurn (speaker : Speaker) (text : String)
  | insertRow (table : String) (record : Row)
  | sendReply (id : String) (name : String) (result : String)
  | closeSession
deriving DecidableEq

/-- The addTodo project query: select id from projects where name ilike
percent-pattern-percent, with .single(), which succeeds only when exactly
one row matches. -/
def projectLookup (st : Store) (pat : String) : Option String :=
  match st.projects.filter (fun p => containsCI p.name pat) with
  | [p] => some p.id
  | _ => none

/-- The addTodo position query: select position from subtasks where
project_id equals the resolved id, ordered descending, limit 1; the lone
returned row (if any) holds the maximum position. -/
def lastPosition (st : Store) (pid : String) : Option ℤ :=
  ((st.subtasks.filter (fun t => t.project_id == pid)).map (fun t => t.position)).max?

/-- Whether the database insert promise rejects (models the mutation
throwing inside the try block; the thrown message is carried along). -/
structure DbFailure where
  insertFails : Bool
  message : String
deriving DecidableEq

/-- The switch statement of handleToolCall: for each intent name, the
database effects performed and the outcome string computed; a thrown
mutation is absorbed by the surrounding catch into an error outcome. -/
def runIntent (fc : FunctionCall) (st : Store) (db : DbFailure) : List Effect × String :=
    match fc.name with
    | "addProject" =>
        if db.insertFails then ([], "Error: " ++ db.message)
        else ([Effect.insertRow "projects"
                (Row.project ⟨fc.args.name, fc.args.client, fc.args.deadline,
                  fc.args.category, "To Do"⟩)],
              "Project \"" ++ fc.args.name ++ "\" added successfully.")
    | "addSkill" =>
        if db.insertFails then ([], "Error: " ++ db.message)
        else ([Effect.insertRow "skills"
                (Row.skill ⟨fc.args.name, fc.args.deadline, fc.args.status,
                  fc.args.category⟩)],
              "Skill \"" ++ fc.args.name ++ "\" added successfully.")
    | "addTransaction" =>
        if db.insertFails then ([], "Error: " ++ db.message)
        else ([Effect.insertRow "transactions"
                (Row.transaction ⟨fc.args.description, fc.args.amount,
                  fc.args.date, fc.args.type⟩)],
              "Transaction \"" ++ fc.args.description ++ "\" logged.")
    | "addTodo" =>
        match projectLookup st fc.args.project_name with
        | none => ([], "Could not find project \"" ++ fc.args.project_name ++ "\".")
        | some pid =>
            let newPosition : ℤ :=
              match lastPosition st pid with
              | some p => p + 1
              | none => 0
            if db.insertFails then ([], "Error: " ++ db.message)
            else ([Effect.insertRow "subtasks"
                    (Row.subtask ⟨fc.args.text, "Not Started", pid, newPosition⟩)],
                  "Task \"" ++ fc.args.text ++ "\" added to \"" ++
                    fc.args.project_name ++ "\".")
    | other => ([], "Function " ++ other ++ " not found.")

/-- Source function handleToolCall (part_005 revision): announce the call
as a system turn, run the switch (runIntent), then append the outcome as a
system turn and send exactly one tool-result reply carrying the
originating call id.  Success and failure paths share the same tail. -/
def handleToolCall (fc : FunctionCall) (st : Store) (db : DbFailure) : List Effect :=
  let dispatch := runIntent fc st db
  Effect.addTurn Speaker.system ("⚡ Executing: " ++ fc.name ++ "...") ::
    dispatch.1 ++
      [Effect.addTurn Speaker.system dispatch.2,
       Effect.sendReply fc.id fc.name dispatch.2]

/-- Whether an effect appends a system-speaker transcript turn. -/
def isSystemTurn : Effect → Bool
  | Effect.addTurn Speaker.system _ => true
  | _ => false

/-- Whether an effect is a tool-result reply referencing the given id. -/
def isReplyTo (cid : String) : Effect → Bool
  | Effect.sendReply i _ _ => i == cid
  | _ => false

/-- Number of system-speaker transcript turns appended by an effect list. -/
def countSystemTurns (es : List Effect) : ℕ := (es.filter isSystemTurn).length

/-- Number of tool-result replies referencing a given call id. -/
def countRepliesTo (cid : String) (es : List Effect) : ℕ :=
  (es.filter (isReplyTo cid)).length

/-- The database inserts performed by an effect list. -/
def insertsOf (es : List Effect) : List (String × Row) :=
  es.filterMap fun e =>
    match e with
    | Effect.insertRow t r => some (t, r)
    | _ => none

/-- The result texts of the tool-result replies in an effect list. -/
def replyResults (es : List Effect) : List String :=
  es.filterMap fun e =>
    match e with
    | Effect.sendReply _ _ r => some r
    | _ => none

/-- Whether an effect list asks the remote session to close. -/
def requestsClose (es : List Effect) : Bool :=
  es.contains Effect.closeSession

/-- The C3 scenario store: exactly one project, no subtasks. -/
def novaStore : Store := ⟨[⟨"p1", "Nova Launch"⟩], []⟩

/-- The C3 scenario intent call. -/
def draftCall : FunctionCall :=
  ⟨"call-1", "addTodo",
    ⟨"", "", "", "", "", "Draft proposal", "nova", "", 0, "", ""⟩⟩

/-- A database behaviour in which no mutation throws. -/
def okDb : DbFailure := ⟨false, ""⟩

/-- A store with one project whose name does not contain the pattern
"nova" case-insensitively (for the C4 witness). -/
def otherStore : Store := ⟨[⟨"p7", "Website Redesign"⟩], []⟩

/-- A create-project intent call whose caller-supplied status field is
deliberately different from the derived one. -/
def projCall : FunctionCall :=
  ⟨"call-9", "addProject",
    ⟨"Site", "ACME", "2025-06-01", "App Development", "Caller Status",
      "", "", "", 0, "", ""⟩⟩

/-! ### Transcript model (onmessage transcription branches) -/

/-- A server message as seen by the transcript handling in onmessage:
the optional input/output transcription deltas and the turn-complete
flag (tool calls and audio are handled by other components). -/
structure ServerMessage where
  inputTranscription : Option String
  outputTranscription : Option String
  turnComplete : Bool
deriving DecidableEq

/-- The transcript-relevant mutable state: the conversation array and the
two closure accumulators currentInputTranscription /
currentOutputTranscription. -/
structure TranscriptState where
  conversation : List Turn
  currentInput : String
  currentOutput : String
deriving DecidableEq

/-- The setConversation(prev => ...) update shared by both transcription
branches: if the trailing turn has this speaker, its text is replaced by
the full accumulator; otherwise a new turn holding the accumulator is
pushed. -/
def pushOrMerge (sp : Speaker) (acc : String) (conv : List Turn) : List Turn :=
  match conv.getLast? with
  | some last =>
      if last.speaker = sp then conv.dropLast ++ [⟨sp, acc⟩]
      else conv ++ [⟨sp, acc⟩]
  | none => conv ++ [⟨sp, acc⟩]

/-- The transcript part of onmessage: the input branch, the else-if output
branch, then the turn-complete reset of both accumulators. -/
def onTranscriptMessage (st : TranscriptState) (m : ServerMessage) : TranscriptState :=
  let st1 :=
    match m.inputTranscription with
    | some t =>
        let acc := st.currentInput ++ t
        ⟨pushOrMerge Speaker.user acc st.conversation, acc, st.currentOutput⟩
    | none =>
        match m.outputTranscription with
        | some t =>
            let acc := st.currentOutput ++ t
            ⟨pushOrMerge Speaker.model acc st.conversation, st.currentInput, acc⟩
        | none => st
  if m.turnComplete then ⟨st1.conversation, "", ""⟩ else st1

/-- A message carrying only an input-transcription delta. -/
def inputMsg (t : String) : ServerMessage := ⟨some t, none, false⟩

/-- A message carrying only an output-transcription delta. -/
def outputMsg (t : String) : ServerMessage := ⟨none, some t, false⟩

/-- A message carrying only the turn-complete signal. -/
def turnCompleteMsg : ServerMessage := ⟨none, none, true⟩

/-- Folding a message sequence through the transcript handler. -/
def runMessages (st : TranscriptState) (ms : List ServerMessage) : TranscriptState :=
  ms.foldl onTranscriptMessage st

/-- The transcript state right after startListening: conversation cleared,
both accumulators empty. -/
def initialTranscript : TranscriptState := ⟨[], "", ""⟩

/-! ### Playback pipeline (nextStartTime scheduling in onmessage) -/

/-- The audio-frame branch of onmessage, run over a sequence of enqueues.
Each input pair is (wall-clock time ctx.currentTime at scheduling, buffer
duration); each output triple extends it with the chosen start time:
the cursor is first raised to the clock, the buffer starts at the raised
cursor, and the cursor advances by the duration. -/
def playTrace : ℚ → List (ℚ × ℚ) → List (ℚ × ℚ × ℚ)
  | _, [] => []
  | c, (n, d) :: rest => (n, d, max c n) :: playTrace (max c n + d) rest

/-- The successive values of the nextStartTime cursor across the same
enqueue sequence, starting from the given value. -/
def cursorTrace : ℚ → List (ℚ × ℚ) → List ℚ
  | c, [] => [c]
  | c, (n, d) :: rest => c :: cursorTrace (max c n + d) rest

/-! ### Session stop (stopListening / onopen) -/

/-- The component's mutable references relevant to stopping: the
isListening flag, the status message, whether the session promise,
media stream, script processor and media stream source are held, the
active playback source count, the playback cursor, and whether the two
audio contexts exist. -/
structure SessionState where
  isListening : Bool
  statusMessage : String
  sessionPromise : Bool
  stream : Bool
  audioProcessor : Bool
  mediaSource : Bool
  sourcesCount : ℕ
  nextStartTime : ℚ
  inputCtx : Bool
  outputCtx : Bool
deriving DecidableEq

/-- Source function stopListening: inside setIsListening(prev => ...), if
neither listening nor holding a stream it returns the state unchanged;
otherwise it requests the session close (when a promise is held — the
close itself is fired in a .then whose failure is caught and only
logged), disconnects processor and source, stops the stream tracks, and
if the output context exists stops and clears all scheduled sources and
resets the cursor.  Total by construction: every fallible sub-step in the
source is wrapped in a catch, so stop never throws. -/
def stopListening (s : SessionState) : SessionState × List Effect :=
  if !s.isListening && !s.stream then (s, [])
  else
    ({ isListening := false
       statusMessage := "Click microphone to start"
       sessionPromise := false
       stream := false
       audioProcessor := false
       mediaSource := false
       sourcesCount := if s.outputCtx then 0 else s.sourcesCount
       nextStartTime := if s.outputCtx then 0 else s.nextStartTime
       inputCtx := s.inputCtx
       outputCtx := s.outputCtx },
     if s.sessionPromise then [Effect.closeSession] else [])

/-- The onopen callback of the live session: it first sets the status
message unconditionally; then, if the input audio context or the stream
is gone (for example after a stop during Connecting), it returns before
touching anything else; otherwise it attaches the processing chain and
starts forwarding frames. -/
def onopen (s : SessionState) : SessionState :=
  let s1 := { s with statusMessage := "Listening..." }
  if !s1.inputCtx || !s1.stream then s1
  else { s1 with
          mediaSource := true
          audioProcessor := true }

/-! ### Theorems -/

theorem b64Val_b64Char : ∀ n < 64, b64Val (b64Char n) = n := by decide

theorem b64Char_ne_pad : ∀ n < 64, b64Char n ≠ '=' := by decide

/-- The base64 layer is an exact inverse pair on byte sequences. -/
theorem decode_encode : ∀ bs : List ℕ, (∀ b ∈ bs, b < 256) → decode (encode bs) = bs
  | [], _ => rfl
  | [a], h => by
      have ha : a < 256 := h a (by simp)
      simp only [encode, decode]
      rw [if_pos trivial]
      rw [b64Val_b64Char _ (by omega), b64Val_b64Char _ (by omega)]
      have : a / 4 * 4 + a % 4 * 16 / 16 = a := by omega
      rw [this]
  | [a, b], h => by
      have ha : a < 256 := h a (by simp)
      have hb : b < 256 := h b (by simp)
      simp only [encode, decode]
      rw [if_neg (b64Char_ne_pad _ (by omega)), if_pos trivial]
      rw [b64Val_b64Char _ (by omega), b64Val_b64Char _ (by omega),
        b64Val_b64Char _ (by omega)]
      have h1 : a / 4 * 4 + (a % 4 * 16 + b / 16) / 16 = a := by omega
      have h2 : (a % 4 * 16 + b / 16) % 16 * 16 + b % 16 * 4 / 4 = b := by omega
      rw [h1, h2]
  | a :: b :: c :: d :: rest, h => by
      have ha : a < 256 := h a (by simp)
      have hb : b < 256 := h b (by simp)
      have hc : c < 256 := h c (by simp)
      have ih : decode (encode (d :: rest)) = d :: rest :=
        decode_encode (d :: rest) (fun x hx => h x (by simp at hx ⊢; tauto))
      simp only [encode, decode]
      rw [if_neg (b64Char_ne_pad _ (by omega)), if_neg (b64Char_ne_pad _ (by omega))]
      rw [b64Val_b64Char _ (by omega), b64Val_b64Char _ (by omega),
        b64Val_b64Char _ (by omega), b64Val_b64Char _ (by omega)]
      rw [ih]
      have h1 : a / 4 * 4 + (a % 4 * 16 + b / 16) / 16 = a := by omega
      have h2 : (a % 4 * 16 + b / 16) % 16 * 16 + (b % 16 * 4 + c / 64) / 4 = b := by omega
      have h3 : (b % 16 * 4 + c / 64) % 4 * 64 + c % 64 = c := by omega
      rw [h1, h2, h3]
  | a :: b :: [c], h => by
      have ha : a < 256 := h a (by simp)
      have hb : b < 256 := h b (by simp)
      have hc : c < 256 := h c (by simp)
      simp only [encode, decode]
      rw [if_neg (b64Char_ne_pad _ (by omega)), if_neg (b64Char_ne_pad _ (by omega))]
      rw [b64Val_b64Char _ (by omega), b64Val_b64Char _ (by omega),
        b64Val_b64Char _ (by omega), b64Val_b64Char _ (by omega)]
      have h1 : a / 4 * 4 + (a % 4 * 16 + b / 16) / 16 = a := by omega
      have h2 : (a % 4 * 16 + b / 16) % 16 * 16 + (b % 16 * 4 + c / 64) / 4 = b := by omega
      have h3 : (b % 16 * 4 + c / 64) % 4 * 64 + c % 64 = c := by omega
      rw [h1, h2, h3]

theorem fromUint16_toUint16 (v : ℤ) (h : -32768 ≤ v ∧ v ≤ 32767) :
    fromUint16 (toUint16 v) = v := by
  simp only [fromUint16, toUint16]
  omega

theorem toUint16_lt (v : ℤ) : toUint16 v < 65536 := by
  simp only [toUint16]
  omega

theorem int16ToBytes_lt (v : ℤ) : ∀ b ∈ int16ToBytes v, b < 256 := by
  have := toUint16_lt v
  simp only [int16ToBytes, List.mem_cons]
  rintro b (rfl | rfl | h)
  · omega
  · omega
  · simp at h

theorem int16sToBytes_lt (vs : List ℤ) : ∀ b ∈ int16sToBytes vs, b < 256 := by
  intro b hb
  simp only [int16sToBytes, List.mem_flatMap] at hb
  obtain ⟨v, _, hv⟩ := hb
  exact int16ToBytes_lt v b hv

theorem int16sToBytes_cons (v : ℤ) (rest : List ℤ) :
    int16sToBytes (v :: rest) = int16ToBytes v ++ int16sToBytes rest := by
  simp [int16sToBytes]

theorem bytesToInt16s_int16sToBytes (vs : List ℤ)
    (h : ∀ v ∈ vs, -32768 ≤ v ∧ v ≤ 32767) :
    bytesToInt16s (int16sToBytes vs) = vs := by
  induction vs with
  | nil => rfl
  | cons v rest ih =>
      have hv := h v (by simp)
      have hrest : ∀ x ∈ rest, -32768 ≤ x ∧ x ≤ 32767 := fun x hx => h x (by simp [hx])
      rw [int16sToBytes_cons]
      simp only [int16ToBytes, List.cons_append, List.nil_append, bytesToInt16s]
      rw [show toUint16 v % 256 + 256 * (toUint16 v / 256) = toUint16 v by omega]
      rw [fromUint16_toUint16 v hv]
      show v :: bytesToInt16s (int16sToBytes rest) = v :: rest
      rw [ih hrest]

theorem ratTrunc_mul_bounds (x : ℚ) (h1 : -1 ≤ x) (h2 : x < 1) :
    -32768 ≤ ratTrunc (x * 32768) ∧ ratTrunc (x * 32768) ≤ 32767 := by
  have hq1 : (-32768 : ℚ) ≤ x * 32768 := by nlinarith
  have hq2 : x * 32768 < 32768 := by nlinarith
  unfold ratTrunc
  split
  case isTrue h =>
    have hub : ⌊x * 32768⌋ < 32768 := Int.floor_lt.mpr (by exact_mod_cast hq2)
    have hlb : (0 : ℤ) ≤ ⌊x * 32768⌋ := Int.le_floor.mpr (by exact_mod_cast h)
    omega
  case isFalse h =>
    have hub : ⌈x * 32768⌉ ≤ 0 :=
      Int.ceil_le.mpr (by exact_mod_cast le_of_lt (not_le.mp h))
    have hlb : (-32768 : ℤ) ≤ ⌈x * 32768⌉ := by
      have hc := Int.le_ceil (x * 32768)
      exact_mod_cast hq1.trans hc
    omega

theorem wrap16_eq_self (n : ℤ) (h1 : -32768 ≤ n) (h2 : n ≤ 32767) : wrap16 n = n := by
  unfold wrap16
  split <;> omega

theorem abs_ratTrunc_sub_le (q : ℚ) : |((ratTrunc q : ℤ) : ℚ) - q| ≤ 1 := by
  unfold ratTrunc
  split
  case isTrue h =>
    rw [abs_le]
    constructor <;> linarith [Int.floor_le q, Int.sub_one_lt_floor q]
  case isFalse h =>
    rw [abs_le]
    constructor <;> linarith [Int.le_ceil q, Int.ceil_lt_add_one q]

theorem jsToInt16_no_wrap (x : ℚ) (h1 : -1 ≤ x) (h2 : x < 1) :
    jsToInt16 x = ratTrunc (x * 32768) ∧
      -32768 ≤ jsToInt16 x ∧ jsToInt16 x ≤ 32767 := by
  obtain ⟨hlo, hhi⟩ := ratTrunc_mul_bounds x h1 h2
  have heq : jsToInt16 x = ratTrunc (x * 32768) := by
    unfold jsToInt16
    exact wrap16_eq_self _ hlo hhi
  exact ⟨heq, by omega, by omega⟩

theorem sample_quantization (x : ℚ) (h1 : -1 ≤ x) (h2 : x < 1) :
    |(jsToInt16 x : ℚ) / 32768 - x| ≤ 1 / 32768 := by
  obtain ⟨heq, hlo, hhi⟩ := jsToInt16_no_wrap x h1 h2
  rw [heq]
  have habs := abs_ratTrunc_sub_le (x * 32768)
  have hsplit : (ratTrunc (x * 32768) : ℚ) / 32768 - x =
      ((ratTrunc (x * 32768) : ℚ) - x * 32768) / 32768 := by ring
  rw [hsplit, abs_div, abs_of_pos (by norm_num : (0 : ℚ) < 32768)]
  exact (div_le_div_iff_of_pos_right (by norm_num)).mpr habs

theorem map_range_getD {α β : Type} (l : List α) (d : α) (f : α → β) :
    (List.range l.length).map (fun i => f (l.getD i d)) = l.map f := by
  induction l with
  | nil => rfl
  | cons hd tl ih =>
      rw [List.length_cons, List.range_succ_eq_map, List.map_cons, List.map_map]
      have hcomp : ((fun i => f ((hd :: tl).getD i d)) ∘ Nat.succ) =
          fun i => f (tl.getD i d) := by
        funext i
        simp
      rw [hcomp, ih]
      simp

theorem decodeAudioData_mono (data : List ℕ) (sr : ℕ) :
    decodeAudioData data sr 1 =
      ⟨sr, [(bytesToInt16s data).map fun v => ((v : ℤ) : ℚ) / 32768]⟩ := by
  unfold decodeAudioData
  simp only [Nat.div_one, mul_one]
  rw [show List.range 1 = [0] from rfl]
  simp only [List.map_cons, List.map_nil, add_zero]
  rw [map_range_getD (bytesToInt16s data) 0 (fun v => ((v : ℤ) : ℚ) / 32768)]

/-- C10: the base64 wire-encoding helpers encode and decode are exact
mutual inverses on arbitrary byte sequences. -/
theorem base64_roundtrip_exact (bs : List ℕ) (h : ∀ b ∈ bs, b < 256) :
    decode (encode bs) = bs :=
  decode_encode bs h

theorem base64_roundtrip_exact_witness :
    (∀ b ∈ ([0, 77, 128, 255] : List ℕ), b < 256) ∧
      decode (encode ([0, 77, 128, 255] : List ℕ)) = [0, 77, 128, 255] :=
  ⟨by decide, base64_roundtrip_exact [0, 77, 128, 255] (by decide)⟩

/-- C2 (amended): for sample values in the half-open range -1 ≤ x < 1,
decoding the encoded frame reproduces the sequence sample-by-sample within
one 16-bit quantization step (1/32768); at the right endpoint x = 1 the
Int16Array store wraps to -32768 and the law fails (see the
counterexample), so the claimed closed range [-1, 1] must be narrowed to
[-1, 1). -/
theorem frame_roundtrip_quantized (s : List ℚ) (hs : ∀ x ∈ s, -1 ≤ x ∧ x < 1) :
    (decodeAudioData (decode (createBlob s).data) 16000 1).channels =
      [s.map fun x => (jsToInt16 x : ℚ) / 32768] ∧
    ∀ x ∈ s, |(jsToInt16 x : ℚ) / 32768 - x| ≤ 1 / 32768 := by
  have hrange : ∀ v ∈ s.map jsToInt16, -32768 ≤ v ∧ v ≤ 32767 := by
    intro v hv
    rw [List.mem_map] at hv
    obtain ⟨x, hx, rfl⟩ := hv
    obtain ⟨_, hlo, hhi⟩ := jsToInt16_no_wrap x (hs x hx).1 (hs x hx).2
    exact ⟨hlo, hhi⟩
  constructor
  · have hdata : (createBlob s).data = encode (int16sToBytes (s.map jsToInt16)) := rfl
    rw [hdata, decode_encode _ (int16sToBytes_lt (s.map jsToInt16)),
      decodeAudioData_mono, bytesToInt16s_int16sToBytes _ hrange, List.map_map]
    rfl
  · intro x hx
    exact sample_quantization x (hs x hx).1 (hs x hx).2

theorem frame_roundtrip_quantized_witness :
    (∀ x ∈ ([1/2, -1/2, 0, -1] : List ℚ), -1 ≤ x ∧ x < 1) ∧
      ((decodeAudioData (decode (createBlob ([1/2, -1/2, 0, -1] : List ℚ)).data)
          16000 1).channels =
        [([1/2, -1/2, 0, -1] : List ℚ).map fun x => (jsToInt16 x : ℚ) / 32768] ∧
      ∀ x ∈ ([1/2, -1/2, 0, -1] : List ℚ),
        |(jsToInt16 x : ℚ) / 32768 - x| ≤ 1 / 32768) :=
  ⟨by norm_num, frame_roundtrip_quantized [1/2, -1/2, 0, -1] (by norm_num)⟩

/-- C2 counterexample: at the endpoint sample 1 (allowed by the claim),
the store int16[i] = data[i] * 32768 wraps 32768 to -32768, so the decoded
sample is -1, an error of 2, far beyond 16-bit quantization error. -/
theorem frame_roundtrip_fails_at_one :
    (decodeAudioData (decode (createBlob [(1 : ℚ)]).data) 16000 1).channels
        = [[-1]] ∧
    ¬ |(-1 : ℚ) - 1| ≤ 1 / 32768 := by
  constructor
  · have h1 : ratTrunc ((1 : ℚ) * 32768) = 32768 := by
      unfold ratTrunc
      rw [if_pos (by norm_num)]
      rw [show ((1 : ℚ) * 32768) = ((32768 : ℤ) : ℚ) by norm_num, Int.floor_intCast]
    have h2 : jsToInt16 1 = -32768 := by
      unfold jsToInt16
      rw [h1]
      decide
    have hblob : (createBlob [(1 : ℚ)]).data = ['A', 'I', 'A', '='] := by
      show encode (int16sToBytes (List.map jsToInt16 [(1 : ℚ)])) = ['A', 'I', 'A', '=']
      rw [List.map_cons, List.map_nil, h2]
      decide
    rw [hblob, decodeAudioData_mono]
    rw [show decode (['A', 'I', 'A', '='] : List Char) = [0, 128] from by decide]
    rw [show bytesToInt16s [0, 128] = [-32768] from by decide]
    norm_num
  · rw [abs_le]
    norm_num


theorem runIntent_ops (fc : FunctionCall) (st : Store) (db : DbFailure) :
    ∀ e ∈ (runIntent fc st db).1, ∃ t r, e = Effect.insertRow t r := by
  intro e he
  unfold runIntent at he
  repeat' split at he
  all_goals simp only [List.mem_singleton, List.not_mem_nil] at he
  all_goals subst he
  all_goals exact ⟨_, _, rfl⟩

theorem handleToolCall_eq (fc : FunctionCall) (st : Store) (db : DbFailure) :
    handleToolCall fc st db =
      Effect.addTurn Speaker.system ("⚡ Executing: " ++ fc.name ++ "...") ::
        (runIntent fc st db).1 ++
          [Effect.addTurn Speaker.system (runIntent fc st db).2,
           Effect.sendReply fc.id fc.name (runIntent fc st db).2] := rfl

theorem ops_filter_nil (fc : FunctionCall) (st : Store) (db : DbFailure)
    (p : Effect → Bool) (hp : ∀ t r, p (Effect.insertRow t r) = false) :
    (runIntent fc st db).1.filter p = [] := by
  rw [List.filter_eq_nil_iff]
  intro e he
  obtain ⟨t, r, rfl⟩ := runIntent_ops fc st db e he
  simp [hp]

/-- C1 (amended): for every intent call dispatched by handleToolCall, on
both the success and the failure path, exactly one tool-result reply
referencing the originating call identifier is sent, and exactly TWO
system-speaker turns are appended to the transcript (the "Executing"
announcement and the outcome line) — not one as the claim states. -/
theorem dispatch_one_reply_two_system_turns
    (fc : FunctionCall) (st : Store) (db : DbFailure) :
    countRepliesTo fc.id (handleToolCall fc st db) = 1 ∧
    countSystemTurns (handleToolCall fc st db) = 2 := by
  rw [handleToolCall_eq]
  constructor
  · unfold countRepliesTo
    simp only [List.filter_cons, List.filter_append]
    rw [ops_filter_nil fc st db (isReplyTo fc.id) (fun t r => rfl)]
    simp [isReplyTo]
  · unfold countSystemTurns
    simp only [List.filter_cons, List.filter_append]
    rw [ops_filter_nil fc st db isSystemTurn (fun t r => rfl)]
    simp [isSystemTurn]

/-- C1 counterexample: a concrete dispatch (the create-task scenario call)
appends two system turns, so the claimed count of exactly one is false. -/
theorem dispatch_system_turn_count_cx :
    countSystemTurns (handleToolCall draftCall novaStore okDb) = 2 ∧
    ¬ countSystemTurns (handleToolCall draftCall novaStore okDb) = 1 := by
  decide

/-- C3 (amended): the create-task scenario against the store holding
exactly project p1 "Nova Launch" inserts the subtask record with name
"Draft proposal", project_id p1, position 0 and status "Not Started" (the
SubtaskStatus.NotStarted enum value, capitalized unlike the claim), and
the single outcome text contains "Draft proposal" and the requested
argument "nova" — the code echoes the spoken project-name argument, not
the stored project name "Nova Launch". -/
theorem create_task_scenario :
    insertsOf (handleToolCall draftCall novaStore okDb) =
      [("subtasks", Row.subtask ⟨"Draft proposal", "Not Started", "p1", 0⟩)] ∧
    replyResults (handleToolCall draftCall novaStore okDb) =
      ["Task \"Draft proposal\" added to \"nova\"."] ∧
    ∀ r ∈ replyResults (handleToolCall draftCall novaStore okDb),
      containsText r "Draft proposal" = true ∧ containsText r "nova" = true := by
  decide

/-- C3 counterexample: in the same scenario the insert does not carry the
claimed lowercase status "not started", and no reply text contains
"Nova Launch". -/
theorem create_task_scenario_cx :
    insertsOf (handleToolCall draftCall novaStore okDb) ≠
      [("subtasks", Row.subtask ⟨"Draft proposal", "not started", "p1", 0⟩)] ∧
    ∀ r ∈ replyResults (handleToolCall draftCall novaStore okDb),
      containsText r "Nova Launch" = false := by
  decide

theorem runIntent_addTodo (cid : String) (a : Args) (st : Store) (db : DbFailure) :
    runIntent ⟨cid, "addTodo", a⟩ st db =
      (match projectLookup st a.project_name with
       | none => ([], "Could not find project \"" ++ a.project_name ++ "\".")
       | some pid =>
           let newPosition : ℤ :=
             match lastPosition st pid with
             | some p => p + 1
             | none => 0
           if db.insertFails then ([], "Error: " ++ db.message)
           else ([Effect.insertRow "subtasks"
                   (Row.subtask ⟨a.text, "Not Started", pid, newPosition⟩)],
                 "Task \"" ++ a.text ++ "\" added to \"" ++
                   a.project_name ++ "\".")) := rfl

/-- C4: when no project in the store matches the requested name under the
case-insensitive partial match, the create-task dispatch produces exactly
the not-found outcome (announcement turn, outcome turn, one reply),
performs no insert, and never requests the session to close — the
intent-level failure leaves the session open. -/
theorem create_task_project_not_found
    (st : Store) (a : Args) (cid : String) (db : DbFailure)
    (h : ∀ p ∈ st.projects, containsCI p.name a.project_name = false) :
    handleToolCall ⟨cid, "addTodo", a⟩ st db =
      [Effect.addTurn Speaker.system ("⚡ Executing: " ++ "addTodo" ++ "..."),
       Effect.addTurn Speaker.system
         ("Could not find project \"" ++ a.project_name ++ "\"."),
       Effect.sendReply cid "addTodo"
         ("Could not find project \"" ++ a.project_name ++ "\".")] ∧
    insertsOf (handleToolCall ⟨cid, "addTodo", a⟩ st db) = [] ∧
    requestsClose (handleToolCall ⟨cid, "addTodo", a⟩ st db) = false := by
  have hlookup : projectLookup st a.project_name = none := by
    unfold projectLookup
    have hfil : st.projects.filter (fun p => containsCI p.name a.project_name) = [] := by
      rw [List.filter_eq_nil_iff]
      intro p hp
      simp [h p hp]
    rw [hfil]
  have hrun : runIntent ⟨cid, "addTodo", a⟩ st db =
      ([], "Could not find project \"" ++ a.project_name ++ "\".") := by
    rw [runIntent_addTodo, hlookup]
  have heq := handleToolCall_eq ⟨cid, "addTodo", a⟩ st db
  rw [hrun] at heq
  refine ⟨heq, ?_, ?_⟩
  · rw [heq]
    simp [insertsOf]
  · rw [heq]
    simp [requestsClose]

theorem create_task_project_not_found_witness :
    (∀ p ∈ otherStore.projects,
      containsCI p.name draftCall.args.project_name = false) ∧
    (handleToolCall ⟨"call-1", "addTodo", draftCall.args⟩ otherStore okDb =
      [Effect.addTurn Speaker.system ("⚡ Executing: " ++ "addTodo" ++ "..."),
       Effect.addTurn Speaker.system
         ("Could not find project \"" ++ draftCall.args.project_name ++ "\"."),
       Effect.sendReply "call-1" "addTodo"
         ("Could not find project \"" ++ draftCall.args.project_name ++ "\".")] ∧
     insertsOf (handleToolCall ⟨"call-1", "addTodo", draftCall.args⟩ otherStore okDb)
        = [] ∧
     requestsClose
        (handleToolCall ⟨"call-1", "addTodo", draftCall.args⟩ otherStore okDb)
        = false) :=
  ⟨by decide,
   create_task_project_not_found otherStore draftCall.args "call-1" okDb (by decide)⟩

theorem runIntent_addProject (cid : String) (a : Args) (st : Store) (db : DbFailure) :
    runIntent ⟨cid, "addProject", a⟩ st db =
      (if db.insertFails then ([], "Error: " ++ db.message)
       else ([Effect.insertRow "projects"
               (Row.project ⟨a.name, a.client, a.deadline, a.category, "To Do"⟩)],
             "Project \"" ++ a.name ++ "\" added successfully.")) := rfl

/-- C9 (amended): for every argument object (in particular whatever status
the caller supplies), the create-project dispatch inserts a Project record
whose status field is the dispatcher-derived ProjectStatus.Todo value
"To Do" — the spread of the args is overridden — not "not started" as the
claim words it. -/
theorem create_project_status_derived
    (a : Args) (cid : String) (st : Store) (db : DbFailure)
    (hdb : db.insertFails = false) :
    insertsOf (handleToolCall ⟨cid, "addProject", a⟩ st db) =
      [("projects", Row.project ⟨a.name, a.client, a.deadline, a.category, "To Do"⟩)] := by
  have hrun : runIntent ⟨cid, "addProject", a⟩ st db =
      ([Effect.insertRow "projects"
          (Row.project ⟨a.name, a.client, a.deadline, a.category, "To Do"⟩)],
        "Project \"" ++ a.name ++ "\" added successfully.") := by
    rw [runIntent_addProject, hdb]
    simp
  have heq := handleToolCall_eq ⟨cid, "addProject", a⟩ st db
  rw [hrun] at heq
  rw [heq]
  simp [insertsOf]

theorem create_project_status_derived_witness :
    okDb.insertFails = false ∧
    insertsOf (handleToolCall ⟨"call-9", "addProject", projCall.args⟩ novaStore okDb) =
      [("projects",
        Row.project ⟨"Site", "ACME", "2025-06-01", "App Development", "To Do"⟩)] :=
  ⟨rfl, create_project_status_derived projCall.args "call-9" novaStore okDb rfl⟩

/-- C9 counterexample: the concrete create-project dispatch (with a
caller-supplied status field reading "Caller Status") inserts status
"To Do", which differs from the claimed default "not started". -/
theorem create_project_status_cx :
    insertsOf (handleToolCall projCall novaStore okDb) =
      [("projects",
        Row.project ⟨"Site", "ACME", "2025-06-01", "App Development", "To Do"⟩)] ∧
    ("To Do" : String) ≠ "not started" := by
  decide

theorem runInput_acc (ds : List String) : ∀ (base : List Turn) (cur o : String),
    runMessages ⟨base ++ [⟨Speaker.user, cur⟩], cur, o⟩ (ds.map inputMsg) =
      ⟨base ++ [⟨Speaker.user, ds.foldl (· ++ ·) cur⟩], ds.foldl (· ++ ·) cur, o⟩ := by
  induction ds with
  | nil => intro base cur o; rfl
  | cons d rest ih =>
      intro base cur o
      have hstep : onTranscriptMessage ⟨base ++ [⟨Speaker.user, cur⟩], cur, o⟩ (inputMsg d) =
          ⟨base ++ [⟨Speaker.user, cur ++ d⟩], cur ++ d, o⟩ := by
        simp [onTranscriptMessage, inputMsg, pushOrMerge, List.getLast?_concat]
      rw [List.map_cons]
      unfold runMessages
      rw [List.foldl_cons, hstep]
      have hrec := ih base (cur ++ d) o
      unfold runMessages at hrec
      rw [hrec]
      rw [List.foldl_cons]

theorem runOutput_acc (ds : List String) : ∀ (base : List Turn) (i cur : String),
    runMessages ⟨base ++ [⟨Speaker.model, cur⟩], i, cur⟩ (ds.map outputMsg) =
      ⟨base ++ [⟨Speaker.model, ds.foldl (· ++ ·) cur⟩], i, ds.foldl (· ++ ·) cur⟩ := by
  induction ds with
  | nil => intro base i cur; rfl
  | cons d rest ih =>
      intro base i cur
      have hstep : onTranscriptMessage ⟨base ++ [⟨Speaker.model, cur⟩], i, cur⟩ (outputMsg d) =
          ⟨base ++ [⟨Speaker.model, cur ++ d⟩], i, cur ++ d⟩ := by
        simp [onTranscriptMessage, outputMsg, pushOrMerge, List.getLast?_concat]
      rw [List.map_cons]
      unfold runMessages
      rw [List.foldl_cons, hstep]
      have hrec := ih base i (cur ++ d)
      unfold runMessages at hrec
      rw [hrec]
      rw [List.foldl_cons]

/-- C5: a nonempty run of same-speaker transcript deltas, applied from the
fresh session state with no boundary signal or speaker change in between,
yields a conversation holding exactly one turn for that speaker whose text
is the concatenation of the deltas — for the user (input) branch and the
assistant (output) branch alike. -/
theorem same_speaker_deltas_single_turn (ds : List String) (h : ds ≠ []) :
    (runMessages initialTranscript (ds.map inputMsg)).conversation =
      [⟨Speaker.user, ds.foldl (· ++ ·) ""⟩] ∧
    (runMessages initialTranscript (ds.map outputMsg)).conversation =
      [⟨Speaker.model, ds.foldl (· ++ ·) ""⟩] := by
  obtain ⟨d, rest, rfl⟩ := List.exists_cons_of_ne_nil h
  constructor
  · rw [List.map_cons]
    unfold runMessages
    rw [List.foldl_cons]
    have hstep : onTranscriptMessage initialTranscript (inputMsg d) =
        ⟨[] ++ [⟨Speaker.user, "" ++ d⟩], "" ++ d, ""⟩ := rfl
    rw [hstep]
    have hrec := runInput_acc rest [] ("" ++ d) ""
    unfold runMessages at hrec
    rw [hrec, List.foldl_cons]
    rfl
  · rw [List.map_cons]
    unfold runMessages
    rw [List.foldl_cons]
    have hstep : onTranscriptMessage initialTranscript (outputMsg d) =
        ⟨[] ++ [⟨Speaker.model, "" ++ d⟩], "", "" ++ d⟩ := rfl
    rw [hstep]
    have hrec := runOutput_acc rest [] "" ("" ++ d)
    unfold runMessages at hrec
    rw [hrec, List.foldl_cons]
    rfl

theorem same_speaker_deltas_single_turn_witness :
    (["Add ", "a task"] : List String) ≠ [] ∧
    ((runMessages initialTranscript ((["Add ", "a task"] : List String).map inputMsg)).conversation =
      [⟨Speaker.user, (["Add ", "a task"] : List String).foldl (· ++ ·) ""⟩] ∧
    (runMessages initialTranscript ((["Add ", "a task"] : List String).map outputMsg)).conversation =
      [⟨Speaker.model, (["Add ", "a task"] : List String).foldl (· ++ ·) ""⟩]) :=
  ⟨by decide, same_speaker_deltas_single_turn ["Add ", "a task"] (by decide)⟩

/-- C6 (amended): the turn-complete signal only resets the accumulators,
so the next delta's text starts fresh (the pre-boundary text is not
concatenated); but because the merge rule looks only at the trailing
turn's speaker, that delta REPLACES the trailing same-speaker turn's text
in place — the old turn's text is lost and no new Turn is created.  A new
Turn appears only when a turn of another speaker has intervened. -/
theorem boundary_resets_accumulator_but_overwrites (h w a : String) :
    (runMessages initialTranscript
        [inputMsg h, turnCompleteMsg, inputMsg w]).conversation
      = [⟨Speaker.user, w⟩] ∧
    (runMessages initialTranscript
        [inputMsg h, turnCompleteMsg, outputMsg a, inputMsg w]).conversation
      = [⟨Speaker.user, h⟩, ⟨Speaker.model, a⟩, ⟨Speaker.user, w⟩] := by
  constructor
  · show ([] ++ [(⟨Speaker.user, ("" : String) ++ w⟩ : Turn)]) = [⟨Speaker.user, w⟩]
    rw [List.nil_append]
    rw [show ("" : String) ++ w = w from rfl]
  · show ([] ++ [(⟨Speaker.user, ("" : String) ++ h⟩ : Turn)] ++
        [(⟨Speaker.model, ("" : String) ++ a⟩ : Turn)] ++
        [(⟨Speaker.user, ("" : String) ++ w⟩ : Turn)])
      = [⟨Speaker.user, h⟩, ⟨Speaker.model, a⟩, ⟨Speaker.user, w⟩]
    rw [show ("" : String) ++ w = w from rfl, show ("" : String) ++ h = h from rfl,
      show ("" : String) ++ a = a from rfl]
    rfl

/-- C6 counterexample: after the deltas "hello", a turn-complete boundary,
then "world", the conversation holds a single user turn reading "world" —
the code overwrote the existing trailing user turn instead of creating
the new Turn the claim requires (which would leave two user turns). -/
theorem boundary_new_turn_cx :
    (runMessages initialTranscript
        [inputMsg "hello", turnCompleteMsg, inputMsg "world"]).conversation
      = [⟨Speaker.user, "world"⟩] ∧
    ¬ (runMessages initialTranscript
        [inputMsg "hello", turnCompleteMsg, inputMsg "world"]).conversation.length = 2 := by
  decide

theorem playTrace_head_start (c : ℚ) (bs : List (ℚ × ℚ)) :
    ∀ e ∈ (playTrace c bs).head?, c ≤ e.2.2 := by
  cases bs with
  | nil => simp [playTrace]
  | cons b rest =>
      obtain ⟨n, d⟩ := b
      intro e he
      simp only [playTrace, List.head?_cons, Option.mem_def, Option.some_inj] at he
      subst he
      exact le_max_left c n

theorem cursorTrace_head (c : ℚ) (bs : List (ℚ × ℚ)) :
    (cursorTrace c bs).head? = some c := by
  cases bs with
  | nil => rfl
  | cons b rest =>
      obtain ⟨n, d⟩ := b
      rfl

/-- C7: playback scheduling.  Each enqueued buffer is given a start time
of max(cursor, clock); the cursor then advances by the duration.  For
buffer durations that are nonnegative: consecutive scheduled buffers
never overlap (each start is at or after the previous start plus its
duration), no buffer is scheduled before the wall-clock time observed at
its enqueue, and the cursor never decreases across enqueue operations. -/
theorem playback_schedule_monotone (c : ℚ) (bs : List (ℚ × ℚ))
    (h : ∀ b ∈ bs, 0 ≤ b.2) :
    List.Chain' (fun x y => x.2.2 + x.2.1 ≤ y.2.2) (playTrace c bs) ∧
    (∀ e ∈ playTrace c bs, e.1 ≤ e.2.2) ∧
    List.Chain' (· ≤ ·) (cursorTrace c bs) := by
  induction bs generalizing c with
  | nil =>
      refine ⟨by simp [playTrace], by simp [playTrace], ?_⟩
      simp [cursorTrace]
  | cons b rest ih =>
      obtain ⟨n, d⟩ := b
      have hd : (0 : ℚ) ≤ d := h (n, d) (by simp)
      have hrest := ih (max c n + d) (fun x hx => h x (by simp [hx]))
      refine ⟨?_, ?_, ?_⟩
      · rw [show playTrace c ((n, d) :: rest) =
            (n, d, max c n) :: playTrace (max c n + d) rest from rfl]
        refine List.chain'_cons'.mpr ⟨?_, hrest.1⟩
        intro e he
        have hhead := playTrace_head_start (max c n + d) rest e he
        exact hhead
      · intro e he
        rw [show playTrace c ((n, d) :: rest) =
            (n, d, max c n) :: playTrace (max c n + d) rest from rfl] at he
        rcases List.mem_cons.mp he with rfl | hmem
        · exact le_max_right c n
        · exact hrest.2.1 e hmem
      · rw [show cursorTrace c ((n, d) :: rest) =
            c :: cursorTrace (max c n + d) rest from rfl]
        refine List.chain'_cons'.mpr ⟨?_, hrest.2.2⟩
        intro x hx
        rw [cursorTrace_head] at hx
        rw [Option.mem_def, Option.some_inj] at hx
        subst hx
        have : c ≤ max c n := le_max_left c n
        linarith

theorem playback_schedule_monotone_witness :
    (∀ b ∈ ([(0, 1/2), (1/4, 1/2)] : List (ℚ × ℚ)), 0 ≤ b.2) ∧
    (List.Chain' (fun x y => x.2.2 + x.2.1 ≤ y.2.2)
        (playTrace 0 ([(0, 1/2), (1/4, 1/2)] : List (ℚ × ℚ))) ∧
      (∀ e ∈ playTrace 0 ([(0, 1/2), (1/4, 1/2)] : List (ℚ × ℚ)), e.1 ≤ e.2.2) ∧
      List.Chain' (· ≤ ·) (cursorTrace 0 ([(0, 1/2), (1/4, 1/2)] : List (ℚ × ℚ)))) :=
  ⟨by norm_num, playback_schedule_monotone 0 [(0, 1/2), (1/4, 1/2)] (by norm_num)⟩

/-- C8: stopListening is modelled as a total function (every fallible
sub-step of the source is individually caught, so stop never throws, in
any state including Connecting, before the session promise resolves).
After a stop: listening is off and the microphone stream is released;
stop is idempotent — a second stop returns the very same state and
performs no further effects; and a late open confirmation re-acquires
nothing: because onopen writes the status text before its guard, the
only change it makes to the stopped state is that status text — the
processing chain stays detached and the microphone stays released. -/
theorem stop_safe_idempotent (s : SessionState) :
    (stopListening s).1.isListening = false ∧
    (stopListening s).1.stream = false ∧
    stopListening (stopListening s).1 = ((stopListening s).1, []) ∧
    onopen (stopListening s).1 =
      { (stopListening s).1 with statusMessage := "Listening..." } := by
  unfold stopListening onopen
  split
  case isTrue hcond =>
      simp only [Bool.and_eq_true, Bool.not_eq_true'] at hcond
      obtain ⟨h1, h2⟩ := hcond
      refine ⟨h1, h2, rfl, ?_⟩
      · rw [if_pos]
        simp [h2]
  case isFalse hcond =>
      refine ⟨rfl, rfl, ?_, ?_⟩
      · rw [if_pos]
        simp
      · rw [if_pos]
        simp
